import Mathlib

/-! VI timer period and reported refresh rate (60fps.c)

The source is a patch against `src/r4300/r4300_core.c` (`init_vi_timer`) and
`src/VI/vi_timing.h` (`VI_REFRESH_DEFAULT`).  Both the removed lines (the
pre-patch code) and the added lines (the patched code) are embedded.

* `R4300_CLK` is a macro that the patch does not define: it is a parameter.
  It is a clock frequency, a non-negative C integer constant, so `/` is the
  truncating integer division of C, which on non-negative operands is `Nat` division.
* `system_is_pal()` is a function the patch does not define: its result is a
  `Bool` parameter.
* `init_vi_timer` assigns the global `vi_period_cycles`; the embedding returns
  the value assigned.
* The `double` literals `50.0`, `60.0` and `60.0988` are embedded as the exact
  rationals they denote.
-/

/-! ## Patched code -/

/-- Patched `init_vi_timer`: the value stored into `vi_period_cycles`.
Both branches of `if (system_is_pal())` assign `R4300_CLK / 60`. -/
def init_vi_timer (system_is_pal : Bool) (R4300_CLK : Nat) : Nat :=
  if system_is_pal then
    R4300_CLK / 60
  else
    R4300_CLK / 60

/-- Patched `#define VI_REFRESH_DEFAULT 60.0`.  The macro no longer calls
`system_is_pal()`; the argument records the standard in force where the macro
is expanded and is ignored. -/
def VI_REFRESH_DEFAULT (_system_is_pal : Bool) : ℚ := 60.0

/-! ## Pre-patch code (the removed lines) -/

/-- Pre-patch `init_vi_timer`: PAL assigns `R4300_CLK / 50`, NTSC assigns
`R4300_CLK / 60`. -/
def init_vi_timer_old (system_is_pal : Bool) (R4300_CLK : Nat) : Nat :=
  if system_is_pal then
    R4300_CLK / 50
  else
    R4300_CLK / 60

/-- Pre-patch `#define VI_REFRESH_DEFAULT (system_is_pal() ? 50.0 : 60.0988)`. -/
def VI_REFRESH_DEFAULT_old (system_is_pal : Bool) : ℚ :=
  if system_is_pal then 50.0 else 60.0988

/-! ## Specification side: rounding -/

/-- Specification-side `round`: round-to-nearest with ties to even, on an exact
rational.  This follows the words of the specification, not the source. -/
def roundHalfEven (q : ℚ) : ℤ :=
  let f : ℤ := ⌊q⌋
  if q - f < 1 / 2 then f
  else if 1 / 2 < q - f then f + 1
  else if f % 2 = 0 then f
  else f + 1

/-- Round-to-nearest, ties to even, of the quotient `n / d` of two naturals,
computed on the integer quotient and remainder.  `roundHalfEven_natDiv` shows
that it is `roundHalfEven (n / d)`. -/
def roundHalfEvenDiv (n d : Nat) : Nat :=
  if 2 * (n % d) < d then n / d
  else if d < 2 * (n % d) then n / d + 1
  else if (n / d) % 2 = 0 then n / d
  else n / d + 1

/-! ## Event scheduler

`init_vi_timer` ends with `/* Schedule first VI interrupt */`; the scheduler that
the call reaches is not part of the patch.  The definitions of this section
follow sections 3 and 4 of the specification.  `CycleCount` is an unsigned
64-bit counter whose overflow the specification declares unreachable; it is
embedded as `Nat`. -/

/-- Modelled from the spec: `EventKind`, the kinds of hardware event (the
scheduler source is not in the patch). -/
inductive EventKind where
  | VideoInterrupt
  | AudioInterrupt
  | CompareTimer
  deriving DecidableEq, Repr

/-- Modelled from the spec: the fixed priority order among kinds that breaks
ties between events due at the same cycle, `VideoInterrupt` first. -/
def EventKind.priority : EventKind → Nat
  | EventKind.VideoInterrupt => 0
  | EventKind.AudioInterrupt => 1
  | EventKind.CompareTimer => 2

/-- Modelled from the spec: `ScheduledEvent`; `periodCycles = none` is a
one-shot event, `some p` a periodic one. -/
structure ScheduledEvent where
  kind : EventKind
  dueAtCycle : Nat
  periodCycles : Option Nat
  deriving DecidableEq, Repr

/-- Modelled from the spec: `PendingSet`, the pending events kept in firing
order (ascending `dueAtCycle`, ties by kind priority). -/
abbrev PendingSet := List ScheduledEvent

/-- Modelled from the spec: the error taxonomy of section 7. -/
inductive SchedError where
  | ConfigurationError
  | SchedulerInvariantViolation
  deriving DecidableEq, Repr

/-- Modelled from the spec: `a` fires no later than `b` in the order of the
pending set. -/
def ScheduledEvent.firesBefore (a b : ScheduledEvent) : Bool :=
  decide (a.dueAtCycle < b.dueAtCycle) ||
    (decide (a.dueAtCycle = b.dueAtCycle) && decide (a.kind.priority ≤ b.kind.priority))

/-- Modelled from the spec: insertion of an event into the ordered pending set. -/
def insertEvent (e : ScheduledEvent) : PendingSet → PendingSet
  | [] => [e]
  | x :: xs => if e.firesBefore x then e :: x :: xs else x :: insertEvent e xs

/-- Modelled from the spec: `cancel(kind)` removes the pending event of that kind. -/
def cancel (pending : PendingSet) (kind : EventKind) : PendingSet :=
  pending.filter (fun e => decide (e.kind ≠ kind))

/-- Modelled from the spec: `schedule(kind, dueAtCycle, periodCycles)`.  A period
of 0 is a `ConfigurationError`; a kind already pending is rejected unless the
caller asks for replacement. -/
def schedule (pending : PendingSet) (kind : EventKind) (dueAtCycle : Nat)
    (periodCycles : Option Nat) (replace : Bool) : Except SchedError PendingSet :=
  if periodCycles = some 0 then
    Except.error SchedError.ConfigurationError
  else if pending.any (fun e => decide (e.kind = kind)) then
    if replace then
      Except.ok (insertEvent ⟨kind, dueAtCycle, periodCycles⟩ (cancel pending kind))
    else
      Except.error SchedError.SchedulerInvariantViolation
  else
    Except.ok (insertEvent ⟨kind, dueAtCycle, periodCycles⟩ pending)

/-- Modelled from the spec: the loop of `advanceAndFire`.  While the first
pending event is due (`dueAtCycle ≤ currentCycle`) it is popped and fired, and a
periodic event is re-inserted with `dueAtCycle + periodCycles`, computed from
its prior deadline.  The result is the events fired, in order, each with the
`dueAtCycle` it fired for, and the remaining pending set.  `fuel` bounds the
number of events fired. -/
def fireDue : Nat → Nat → PendingSet → List ScheduledEvent × PendingSet
  | 0, _, pending => ([], pending)
  | _ + 1, _, [] => ([], [])
  | fuel + 1, currentCycle, e :: rest =>
    if e.dueAtCycle ≤ currentCycle then
      let pending :=
        match e.periodCycles with
        | none => rest
        | some p => insertEvent { e with dueAtCycle := e.dueAtCycle + p } rest
      let r := fireDue fuel currentCycle pending
      (e :: r.1, r.2)
    else
      ([], e :: rest)

/-- Modelled from the spec: an upper bound on the number of firings of one call
of `advanceAndFire`: an event with a positive period that is due at `d` fires at
most `currentCycle + 1 - d` times up to `currentCycle`. -/
def fireBudget (currentCycle : Nat) (pending : PendingSet) : Nat :=
  (pending.map (fun e => currentCycle + 1 - e.dueAtCycle)).sum

/-- Modelled from the spec: `advanceAndFire(currentCycle)`. -/
def advanceAndFire (currentCycle : Nat) (pending : PendingSet) :
    List ScheduledEvent × PendingSet :=
  fireDue (fireBudget currentCycle pending) currentCycle pending

/-- Modelled from the spec: `peekNextDeadline()`. -/
def peekNextDeadline (pending : PendingSet) : Option Nat :=
  pending.head?.map ScheduledEvent.dueAtCycle

/-- Modelled from the spec: the cycle clock together with the pending set of the
scheduler. -/
structure Core where
  now : Nat
  pending : PendingSet
  deriving DecidableEq, Repr

/-- Modelled from the spec: one unit of interpreter work, `advance(delta)`
followed by `advanceAndFire(now())`. -/
def Core.step (s : Core) (delta : Nat) : List ScheduledEvent × Core :=
  let r := advanceAndFire (s.now + delta) s.pending
  (r.1, { now := s.now + delta, pending := r.2 })

/-- Modelled from the spec: a session driven by a sequence of cycle deltas; the
result is every event fired, in order, and the final state. -/
def Core.run (s : Core) : List Nat → List ScheduledEvent × Core
  | [] => ([], s)
  | delta :: deltas =>
    let r1 := s.step delta
    let r2 := Core.run r1.2 deltas
    (r1.1 ++ r2.1, r2.2)

/-- The periodic `VideoInterrupt` event due at `due` with period `P`. -/
def viEvent (due P : Nat) : ScheduledEvent :=
  { kind := EventKind.VideoInterrupt, dueAtCycle := due, periodCycles := some P }

/-- Whether an event is a `VideoInterrupt` (used to select the VI firings of a
session). -/
def ScheduledEvent.isVideo (e : ScheduledEvent) : Bool :=
  decide (e.kind = EventKind.VideoInterrupt)

/-- The invariant of a pending set that holds the periodic `VideoInterrupt`
event of period `P` with deadline `due`: the set is in firing order, no period
is 0, and its only `VideoInterrupt` entry is that event. -/
def PendingOk (P due : Nat) (pending : PendingSet) : Prop :=
  pending.Pairwise (fun a b => a.firesBefore b = true) ∧
  (∀ e ∈ pending, e.periodCycles ≠ some 0) ∧
  pending.filter ScheduledEvent.isVideo = [viEvent due P]

/-! ## Helper lemmas -/

theorem init_vi_timer_eq (pal : Bool) (c : Nat) : init_vi_timer pal c = c / 60 := by
  cases pal <;> rfl

theorem VI_REFRESH_DEFAULT_eq (pal : Bool) : VI_REFRESH_DEFAULT pal = 60 := by
  unfold VI_REFRESH_DEFAULT
  norm_num

theorem natDiv_frac (n d : Nat) (hd : 0 < d) :
    (n : ℚ) / d - ((n / d : Nat) : ℤ) = ((n % d : Nat) : ℚ) / d := by
  have hd0 : (d : ℚ) ≠ 0 := by exact_mod_cast hd.ne'
  have h := Nat.div_add_mod n d
  have hq : (n : ℚ) = (d : ℚ) * ((n / d : Nat) : ℚ) + ((n % d : Nat) : ℚ) := by
    exact_mod_cast h.symm
  rw [Int.cast_natCast, sub_eq_iff_eq_add, div_add' _ _ _ hd0, div_left_inj' hd0]
  linarith

/-- The natural-number rounding computes the rational rounding of `n / d`. -/
theorem roundHalfEven_natDiv (n d : Nat) (hd : 0 < d) :
    roundHalfEven ((n : ℚ) / d) = (roundHalfEvenDiv n d : ℤ) := by
  have hdq : (0 : ℚ) < d := by exact_mod_cast hd
  have hfl : ⌊(n : ℚ) / d⌋ = ((n / d : Nat) : ℤ) := by
    rw [Rat.floor_natCast_div_natCast]
    norm_cast
  have hfr := natDiv_frac n d hd
  have hlt : ((n % d : Nat) : ℚ) / d < 1 / 2 ↔ 2 * (n % d) < d := by
    rw [div_lt_div_iff₀ hdq (by norm_num : (0 : ℚ) < 2)]
    constructor
    · intro h
      have h2 : (((n % d : Nat) * 2 : Nat) : ℚ) < ((1 * d : Nat) : ℚ) := by
        push_cast
        exact h
      have h3 := Nat.cast_lt.mp h2
      omega
    · intro h
      have h2 : (((n % d : Nat) * 2 : Nat) : ℚ) < ((1 * d : Nat) : ℚ) := by
        apply Nat.cast_lt.mpr
        omega
      push_cast at h2
      exact h2
  have hgt : 1 / 2 < ((n % d : Nat) : ℚ) / d ↔ d < 2 * (n % d) := by
    rw [div_lt_div_iff₀ (by norm_num : (0 : ℚ) < 2) hdq]
    constructor
    · intro h
      have h2 : ((1 * d : Nat) : ℚ) < (((n % d : Nat) * 2 : Nat) : ℚ) := by
        push_cast
        exact h
      have h3 := Nat.cast_lt.mp h2
      omega
    · intro h
      have h2 : ((1 * d : Nat) : ℚ) < (((n % d : Nat) * 2 : Nat) : ℚ) := by
        apply Nat.cast_lt.mpr
        omega
      push_cast at h2
      exact h2
  have hev : ((n / d : Nat) : ℤ) % 2 = 0 ↔ (n / d) % 2 = 0 := by omega
  unfold roundHalfEven roundHalfEvenDiv
  simp only [hfl, hfr, hlt, hgt, hev]
  split_ifs <;> simp

theorem roundHalfEvenDiv_bounds (n d : Nat) :
    n / d ≤ roundHalfEvenDiv n d ∧ roundHalfEvenDiv n d ≤ n / d + 1 := by
  unfold roundHalfEvenDiv
  split_ifs <;> omega

theorem floor_natDiv (n d : Nat) : ⌊(n : ℚ) / d⌋ = ((n / d : Nat) : ℤ) := by
  rw [Rat.floor_natCast_div_natCast]
  norm_cast

/-! ## Claims about the timer period and the reported rate -/

/-- C1: in the patched `init_vi_timer` the VI period does not depend on the video
standard: for every clock value `c` the period computed when `system_is_pal()` is
true equals the one computed when it is false, and both are `c / 60`. -/
theorem C1_period_independent_of_standard (c : Nat) :
    init_vi_timer true c = init_vi_timer false c ∧
    init_vi_timer true c = c / 60 ∧ init_vi_timer false c = c / 60 :=
  ⟨rfl, rfl, rfl⟩

/-- C2: the patched `VI_REFRESH_DEFAULT` is exactly 60.0 for both video standards,
whereas the pre-patch definition gave 50.0 for PAL and 60.0988 for NTSC. -/
theorem C2_refresh_default_sixty (pal : Bool) :
    VI_REFRESH_DEFAULT pal = 60 ∧
    VI_REFRESH_DEFAULT_old true = 50 ∧
    VI_REFRESH_DEFAULT_old false = 600988 / 10000 := by
  refine ⟨VI_REFRESH_DEFAULT_eq pal, ?_, ?_⟩
  · simp only [VI_REFRESH_DEFAULT_old, if_true]
    norm_num
  · simp only [VI_REFRESH_DEFAULT_old, Bool.false_eq_true, if_false]
    norm_num

/-- C3 (as stated) fails: at clock 59 on the PAL branch the patched
`init_vi_timer` stores 59 / 60 = 0, while round-to-nearest of 59/60 is 1. -/
theorem C3_truncation_counterexample :
    0 < (59 : Nat) ∧ init_vi_timer true 59 = 0 ∧
    roundHalfEven (((59 : Nat) : ℚ) / ((60 : Nat) : ℚ)) = 1 ∧
    (init_vi_timer true 59 : ℤ) ≠ roundHalfEven (((59 : Nat) : ℚ) / ((60 : Nat) : ℚ)) := by
  have hr : roundHalfEven (((59 : Nat) : ℚ) / ((60 : Nat) : ℚ)) = 1 := by
    rw [roundHalfEven_natDiv 59 60 (by decide)]
    decide
  refine ⟨by decide, by decide, hr, ?_⟩
  rw [hr]
  decide

/-- C3 (amended): for every clock value and both video standards the period
stored by the patched `init_vi_timer` is the truncated quotient
`floor (clockHz / 60)`; it is `round (clockHz / 60)` or exactly one less. -/
theorem C3_period_is_truncated_quotient (pal : Bool) (c : Nat) :
    (init_vi_timer pal c : ℤ) = ⌊(c : ℚ) / ((60 : Nat) : ℚ)⌋ ∧
    (init_vi_timer pal c : ℤ) ≤ roundHalfEven ((c : ℚ) / ((60 : Nat) : ℚ)) ∧
    roundHalfEven ((c : ℚ) / ((60 : Nat) : ℚ)) ≤ (init_vi_timer pal c : ℤ) + 1 := by
  rw [init_vi_timer_eq, floor_natDiv, roundHalfEven_natDiv c 60 (by decide)]
  have hb := roundHalfEvenDiv_bounds c 60
  refine ⟨rfl, ?_, ?_⟩
  · exact_mod_cast hb.1
  · exact_mod_cast hb.2

/-- C4: with the PAL standard and clock 93750000 the patched `init_vi_timer`
stores `round (93750000 / 60) = 1562500` cycles, and `VI_REFRESH_DEFAULT` is
exactly 60.0. -/
theorem C4_override_example :
    (init_vi_timer true 93750000 : ℤ)
      = roundHalfEven (((93750000 : Nat) : ℚ) / ((60 : Nat) : ℚ)) ∧
    roundHalfEven (((93750000 : Nat) : ℚ) / ((60 : Nat) : ℚ)) = 1562500 ∧
    init_vi_timer true 93750000 = 1562500 ∧
    VI_REFRESH_DEFAULT true = 60 := by
  have hr : roundHalfEven (((93750000 : Nat) : ℚ) / ((60 : Nat) : ℚ)) = 1562500 := by
    rw [roundHalfEven_natDiv 93750000 60 (by decide)]
    decide
  have hp : init_vi_timer true 93750000 = 1562500 := by decide
  refine ⟨?_, hr, hp, VI_REFRESH_DEFAULT_eq true⟩
  rw [hr, hp]
  rfl

/-- C5: the reported rate never diverges from the scheduled period: for each
standard and every clock `c`, with `R = VI_REFRESH_DEFAULT` and `p` the period
stored by the patched `init_vi_timer`, `p * R ≤ c < (p + 1) * R`. -/
theorem C5_period_derived_from_reported_rate (pal : Bool) (c : Nat) :
    (init_vi_timer pal c : ℚ) * VI_REFRESH_DEFAULT pal ≤ (c : ℚ) ∧
    (c : ℚ) < ((init_vi_timer pal c : ℚ) + 1) * VI_REFRESH_DEFAULT pal := by
  rw [init_vi_timer_eq, VI_REFRESH_DEFAULT_eq]
  have h1 : c / 60 * 60 ≤ c := Nat.div_mul_le_self c 60
  have h2 : c < (c / 60 + 1) * 60 := by omega
  constructor
  · exact_mod_cast h1
  · exact_mod_cast h2

/-- C6: after the patch PAL no longer uses its native period: for every clock
`c ≥ 250` the patched PAL period `c / 60` is strictly smaller than the pre-patch
PAL period `c / 50` (1562500 versus 1875000 at `c = 93750000`), and the reported
PAL rate is 60.0 rather than 50.0. -/
theorem C6_pal_leaves_native_period (c : Nat) (h : 250 ≤ c) :
    init_vi_timer true c < init_vi_timer_old true c ∧
    init_vi_timer true 93750000 = 1562500 ∧
    init_vi_timer_old true 93750000 = 1875000 ∧
    VI_REFRESH_DEFAULT true = 60 ∧
    VI_REFRESH_DEFAULT_old true = 50 ∧
    VI_REFRESH_DEFAULT true ≠ VI_REFRESH_DEFAULT_old true := by
  have h50 : VI_REFRESH_DEFAULT_old true = 50 := by
    simp only [VI_REFRESH_DEFAULT_old, if_true]
    norm_num
  refine ⟨?_, by decide, by decide, VI_REFRESH_DEFAULT_eq true, h50, ?_⟩
  · simp only [init_vi_timer, init_vi_timer_old, if_true]
    omega
  · rw [VI_REFRESH_DEFAULT_eq, h50]
    norm_num

/-- C6 at the smallest admissible clock, 250: the periods are 4 and 5. -/
theorem C6_pal_leaves_native_period_witness :
    250 ≤ 250 ∧
    (init_vi_timer true 250 < init_vi_timer_old true 250 ∧
    init_vi_timer true 93750000 = 1562500 ∧
    init_vi_timer_old true 93750000 = 1875000 ∧
    VI_REFRESH_DEFAULT true = 60 ∧
    VI_REFRESH_DEFAULT_old true = 50 ∧
    VI_REFRESH_DEFAULT true ≠ VI_REFRESH_DEFAULT_old true) :=
  ⟨by decide, C6_pal_leaves_native_period 250 (by decide)⟩

/-- C7 (as stated) fails: the clock value 1 is positive, yet the patched
`init_vi_timer` stores the period 0 for both standards. -/
theorem C7_zero_period_counterexample :
    0 < (1 : Nat) ∧ init_vi_timer true 1 = 0 ∧ init_vi_timer false 1 = 0 := by
  decide

/-- C7 (amended): for both video standards the period stored by the patched
`init_vi_timer` is non-zero exactly when the clock is at least 60. -/
theorem C7_period_nonzero_iff (pal : Bool) (c : Nat) :
    init_vi_timer pal c ≠ 0 ↔ 60 ≤ c := by
  rw [init_vi_timer_eq]
  omega

/-- C8 (as stated) fails on both branches of the pre-patch code: PAL at clock 49
stores 49 / 50 = 0 while `round (49 / 50.0) = 1`; NTSC at clock 93750000 stores
93750000 / 60 = 1562500 while `round (93750000 / 60.0988) = 1559931`. -/
theorem C8_native_rate_counterexample :
    (0 < (49 : Nat) ∧ init_vi_timer_old true 49 = 0 ∧
      roundHalfEven (((49 : Nat) : ℚ) / VI_REFRESH_DEFAULT_old true) = 1) ∧
    (0 < (93750000 : Nat) ∧ init_vi_timer_old false 93750000 = 1562500 ∧
      roundHalfEven (((93750000 : Nat) : ℚ) / VI_REFRESH_DEFAULT_old false) = 1559931) := by
  have e1 : ((49 : Nat) : ℚ) / VI_REFRESH_DEFAULT_old true
      = ((49 : Nat) : ℚ) / ((50 : Nat) : ℚ) := by
    simp only [VI_REFRESH_DEFAULT_old, if_true]
    norm_num
  have e2 : ((93750000 : Nat) : ℚ) / VI_REFRESH_DEFAULT_old false
      = ((937500000000 : Nat) : ℚ) / ((600988 : Nat) : ℚ) := by
    simp only [VI_REFRESH_DEFAULT_old, Bool.false_eq_true, if_false]
    norm_num
  refine ⟨⟨by decide, by decide, ?_⟩, ⟨by decide, by decide, ?_⟩⟩
  · rw [e1, roundHalfEven_natDiv 49 50 (by decide)]
    decide
  · rw [e2, roundHalfEven_natDiv 937500000000 600988 (by decide)]
    decide

/-- C8 (amended): in the pre-patch code the PAL period is the truncated quotient
of the clock by the rate `VI_REFRESH_DEFAULT` reports for PAL (50.0): it is
`floor (c / 50.0)`, which is `round (c / 50.0)` or exactly one less. -/
theorem C8_old_pal_period_truncated (c : Nat) :
    (init_vi_timer_old true c : ℤ) = ⌊(c : ℚ) / VI_REFRESH_DEFAULT_old true⌋ ∧
    (init_vi_timer_old true c : ℤ) ≤ roundHalfEven ((c : ℚ) / VI_REFRESH_DEFAULT_old true) ∧
    roundHalfEven ((c : ℚ) / VI_REFRESH_DEFAULT_old true)
      ≤ (init_vi_timer_old true c : ℤ) + 1 := by
  have hR : VI_REFRESH_DEFAULT_old true = ((50 : Nat) : ℚ) := by
    simp only [VI_REFRESH_DEFAULT_old, if_true]
    norm_num
  have hp : init_vi_timer_old true c = c / 50 := rfl
  rw [hR, hp, floor_natDiv, roundHalfEven_natDiv c 50 (by decide)]
  have hb := roundHalfEvenDiv_bounds c 50
  refine ⟨rfl, ?_, ?_⟩
  · exact_mod_cast hb.1
  · exact_mod_cast hb.2

/-- C9: the patch leaves the NTSC period unchanged: for every clock `c` the
pre-patch and the patched `init_vi_timer` store the same period `c / 60` on the
NTSC branch, so the two versions can differ only when `system_is_pal()` is true. -/
theorem C9_ntsc_period_unchanged (c : Nat) :
    init_vi_timer_old false c = init_vi_timer false c ∧
    init_vi_timer false c = c / 60 ∧
    (∀ pal : Bool, pal = true ∨ init_vi_timer_old pal c = init_vi_timer pal c) := by
  refine ⟨rfl, rfl, ?_⟩
  intro pal
  cases pal
  · exact Or.inr rfl
  · exact Or.inl rfl

/-! ## Drift-free rescheduling -/

theorem firesBefore_due {a b : ScheduledEvent} (h : a.firesBefore b = true) :
    a.dueAtCycle ≤ b.dueAtCycle := by
  simp only [ScheduledEvent.firesBefore, Bool.or_eq_true, Bool.and_eq_true,
    decide_eq_true_eq] at h
  omega

theorem firesBefore_total (a b : ScheduledEvent) (h : ¬ a.firesBefore b = true) :
    b.firesBefore a = true := by
  simp only [ScheduledEvent.firesBefore, Bool.or_eq_true, Bool.and_eq_true,
    decide_eq_true_eq] at h ⊢
  omega

theorem firesBefore_trans {a b c : ScheduledEvent} (hab : a.firesBefore b = true)
    (hbc : b.firesBefore c = true) : a.firesBefore c = true := by
  simp only [ScheduledEvent.firesBefore, Bool.or_eq_true, Bool.and_eq_true,
    decide_eq_true_eq] at hab hbc ⊢
  omega

theorem mem_insertEvent (e y : ScheduledEvent) (l : PendingSet) :
    y ∈ insertEvent e l ↔ y = e ∨ y ∈ l := by
  induction l with
  | nil => simp [insertEvent]
  | cons x xs ih =>
    unfold insertEvent
    split_ifs
    · simp
    · simp only [List.mem_cons, ih]
      tauto

theorem pairwise_insertEvent (e : ScheduledEvent) (l : PendingSet)
    (h : l.Pairwise (fun a b => a.firesBefore b = true)) :
    (insertEvent e l).Pairwise (fun a b => a.firesBefore b = true) := by
  induction l with
  | nil => simp [insertEvent]
  | cons x xs ih =>
    rw [List.pairwise_cons] at h
    unfold insertEvent
    split_ifs with hex
    · rw [List.pairwise_cons]
      refine ⟨?_, List.pairwise_cons.mpr h⟩
      intro y hy
      rcases List.mem_cons.mp hy with rfl | hy
      · exact hex
      · exact firesBefore_trans hex (h.1 y hy)
    · rw [List.pairwise_cons]
      refine ⟨?_, ih h.2⟩
      intro y hy
      rcases (mem_insertEvent e y xs).mp hy with rfl | hy
      · exact firesBefore_total _ _ hex
      · exact h.1 y hy

theorem fireBudget_cons (cur : Nat) (e : ScheduledEvent) (l : PendingSet) :
    fireBudget cur (e :: l) = (cur + 1 - e.dueAtCycle) + fireBudget cur l := by
  simp [fireBudget]

theorem fireBudget_insertEvent (cur : Nat) (e : ScheduledEvent) (l : PendingSet) :
    fireBudget cur (insertEvent e l) = (cur + 1 - e.dueAtCycle) + fireBudget cur l := by
  induction l with
  | nil => simp [insertEvent, fireBudget]
  | cons x xs ih =>
    unfold insertEvent
    split_ifs
    · rw [fireBudget_cons]
    · rw [fireBudget_cons, ih, fireBudget_cons]
      omega

theorem filter_insertEvent_of_not (q : ScheduledEvent → Bool) (e : ScheduledEvent)
    (l : PendingSet) (he : q e = false) :
    (insertEvent e l).filter q = l.filter q := by
  induction l with
  | nil => simp [insertEvent, he]
  | cons x xs ih =>
    unfold insertEvent
    split_ifs
    · simp [List.filter_cons, he]
    · simp only [List.filter_cons, ih]

theorem filter_insertEvent_of_none (q : ScheduledEvent → Bool) (e : ScheduledEvent)
    (l : PendingSet) (he : q e = true) (hl : l.filter q = []) :
    (insertEvent e l).filter q = [e] := by
  induction l with
  | nil => simp [insertEvent, he]
  | cons x xs ih =>
    have hx : q x = false := by
      by_contra hq
      simp [List.filter_cons, hq] at hl
    have hxs : xs.filter q = [] := by
      simpa [List.filter_cons, hx] using hl
    unfold insertEvent
    split_ifs
    · simp [List.filter_cons, he, hx, hxs]
    · simp [List.filter_cons, hx, ih hxs]

theorem fireBudget_pos_of_mem (cur : Nat) (l : PendingSet) (e : ScheduledEvent)
    (he : e ∈ l) : cur + 1 - e.dueAtCycle ≤ fireBudget cur l := by
  induction l with
  | nil => simp at he
  | cons x xs ih =>
    rw [fireBudget_cons]
    rcases List.mem_cons.mp he with rfl | h
    · omega
    · have := ih h
      omega

theorem viEvent_mem_of_ok {P due : Nat} {l : PendingSet} (h : PendingOk P due l) :
    viEvent due P ∈ l := by
  have hm : viEvent due P ∈ l.filter ScheduledEvent.isVideo := by
    rw [h.2.2]
    simp
  exact (List.mem_filter.mp hm).1

theorem fireDue_periodic (fuel cur p : Nat) (e : ScheduledEvent) (rest : PendingSet)
    (hdue : e.dueAtCycle ≤ cur) (hp : e.periodCycles = some p) :
    fireDue (fuel + 1) cur (e :: rest) =
      (e :: (fireDue fuel cur
              (insertEvent { e with dueAtCycle := e.dueAtCycle + p } rest)).1,
       (fireDue fuel cur (insertEvent { e with dueAtCycle := e.dueAtCycle + p } rest)).2) := by
  simp [fireDue, hdue, hp]

theorem fireDue_oneshot (fuel cur : Nat) (e : ScheduledEvent) (rest : PendingSet)
    (hdue : e.dueAtCycle ≤ cur) (hp : e.periodCycles = none) :
    fireDue (fuel + 1) cur (e :: rest) =
      (e :: (fireDue fuel cur rest).1, (fireDue fuel cur rest).2) := by
  simp [fireDue, hdue, hp]

theorem fireDue_not_due (fuel cur : Nat) (e : ScheduledEvent) (rest : PendingSet)
    (hdue : ¬ e.dueAtCycle ≤ cur) :
    fireDue (fuel + 1) cur (e :: rest) = ([], e :: rest) := by
  simp [fireDue, hdue]

theorem index_of_not_due (P : Nat) (hP : 0 < P) (m cur : Nat) (hm : m ≤ cur / P + 1)
    (hlt : cur < m * P) : m = cur / P + 1 := by
  have hdiv : cur / P < m := (Nat.div_lt_iff_lt_mul hP).mpr hlt
  omega

/-- One call of `advanceAndFire` on a well-formed pending set whose
`VideoInterrupt` deadline is `m * P`: the VI firings are the deadlines
`m * P, (m + 1) * P, ...` up to the current cycle, nothing due remains pending,
and the pending VI deadline is the first multiple of `P` after the current cycle. -/
theorem fireDue_ok (P : Nat) (hP : 0 < P) :
    ∀ (fuel cur : Nat) (ps : PendingSet) (m : Nat),
      PendingOk P (m * P) ps → fireBudget cur ps ≤ fuel → m ≤ cur / P + 1 →
      (fireDue fuel cur ps).1.filter ScheduledEvent.isVideo =
          (List.range (cur / P + 1 - m)).map (fun k => viEvent ((m + k) * P) P) ∧
      PendingOk P ((cur / P + 1) * P) (fireDue fuel cur ps).2 ∧
      (∀ e ∈ (fireDue fuel cur ps).2, cur < e.dueAtCycle) := by
  intro fuel
  induction fuel with
  | zero =>
    intro cur ps m hok hb hm
    have hall : ∀ e ∈ ps, cur < e.dueAtCycle := by
      intro e he
      have := fireBudget_pos_of_mem cur ps e he
      omega
    have hvi : cur < m * P := hall _ (viEvent_mem_of_ok hok)
    have hmeq := index_of_not_due P hP m cur hm hvi
    have h0 : cur / P + 1 - m = 0 := by omega
    have hres : fireDue 0 cur ps = ([], ps) := by
      cases ps <;> rfl
    rw [hres, h0, ← hmeq]
    exact ⟨rfl, hok, hall⟩
  | succ fuel ih =>
    intro cur ps m hok hb hm
    cases ps with
    | nil =>
      have := hok.2.2
      simp at this
    | cons e rest =>
      obtain ⟨hsort, hper, hfilt⟩ := hok
      rw [List.pairwise_cons] at hsort
      rw [fireBudget_cons] at hb
      by_cases hdue : e.dueAtCycle ≤ cur
      · by_cases hvid : e.isVideo = true
        · -- the head is the VideoInterrupt event
          rw [List.filter_cons_of_pos hvid] at hfilt
          have he : e = viEvent (m * P) P := (List.cons.inj hfilt).1
          have hrest : rest.filter ScheduledEvent.isVideo = [] := (List.cons.inj hfilt).2
          subst he
          have hdue2 : m * P ≤ cur := hdue
          have hmle : m ≤ cur / P := (Nat.le_div_iff_mul_le hP).mpr hdue2
          have hsucc : (m + 1) * P = m * P + P := Nat.succ_mul m P
          have hnext : ({ viEvent (m * P) P with
              dueAtCycle := (viEvent (m * P) P).dueAtCycle + P } : ScheduledEvent)
              = viEvent ((m + 1) * P) P := by
            rw [hsucc]
            rfl
          have hstep := fireDue_periodic fuel cur P (viEvent (m * P) P) rest hdue rfl
          rw [hnext] at hstep
          have hok2 : PendingOk P ((m + 1) * P) (insertEvent (viEvent ((m + 1) * P) P) rest) := by
            refine ⟨pairwise_insertEvent _ _ hsort.2, ?_, ?_⟩
            · intro x hx
              rcases (mem_insertEvent _ _ _).mp hx with rfl | hx
              · simp only [viEvent, ne_eq, Option.some.injEq]
                omega
              · exact hper x (List.mem_cons_of_mem _ hx)
            · exact filter_insertEvent_of_none _ _ _ rfl hrest
          have hb2 : fireBudget cur (insertEvent (viEvent ((m + 1) * P) P) rest) ≤ fuel := by
            rw [fireBudget_insertEvent]
            have h1 : (viEvent ((m + 1) * P) P).dueAtCycle = m * P + P := by
              rw [← hsucc]
              rfl
            have h2 : (viEvent (m * P) P).dueAtCycle = m * P := rfl
            rw [h1]
            rw [h2] at hb
            omega
          obtain ⟨ih1, ih2, ih3⟩ := ih cur _ (m + 1) hok2 hb2 (by omega)
          rw [hstep]
          refine ⟨?_, ih2, ih3⟩
          have hcount : cur / P + 1 - m = (cur / P + 1 - (m + 1)) + 1 := by omega
          simp only []
          rw [List.filter_cons_of_pos hvid, ih1, hcount, List.range_succ_eq_map]
          simp only [List.map_cons, List.map_map, Nat.add_zero]
          congr 1
          apply List.map_congr_left
          intro k _
          simp only [Function.comp_apply]
          congr 2
          omega
        · -- the head is an event of another kind
          have hvid2 : e.isVideo = false := by simpa using hvid
          rw [List.filter_cons_of_neg hvid] at hfilt
          have hper2 : ∀ x ∈ rest, x.periodCycles ≠ some 0 :=
            fun x hx => hper x (List.mem_cons_of_mem _ hx)
          cases hp : e.periodCycles with
          | none =>
            have hstep := fireDue_oneshot fuel cur e rest hdue hp
            have hok2 : PendingOk P (m * P) rest := ⟨hsort.2, hper2, hfilt⟩
            obtain ⟨ih1, ih2, ih3⟩ := ih cur rest m hok2 (by omega) hm
            rw [hstep]
            refine ⟨?_, ih2, ih3⟩
            simp only []
            rw [List.filter_cons_of_neg hvid, ih1]
          | some p =>
            have hp0 : p ≠ 0 := by
              intro h0
              apply hper e (List.mem_cons_self _ _)
              rw [hp, h0]
            have hstep := fireDue_periodic fuel cur p e rest hdue hp
            have hvid3 : ScheduledEvent.isVideo
                { e with dueAtCycle := e.dueAtCycle + p } = false := hvid2
            have hok2 : PendingOk P (m * P)
                (insertEvent { e with dueAtCycle := e.dueAtCycle + p } rest) := by
              refine ⟨pairwise_insertEvent _ _ hsort.2, ?_, ?_⟩
              · intro x hx
                rcases (mem_insertEvent _ _ _).mp hx with rfl | hx
                · exact hper e (List.mem_cons_self _ _)
                · exact hper2 x hx
              · rw [filter_insertEvent_of_not _ _ _ hvid3]
                exact hfilt
            have hb2 : fireBudget cur
                (insertEvent { e with dueAtCycle := e.dueAtCycle + p } rest) ≤ fuel := by
              rw [fireBudget_insertEvent]
              simp only []
              omega
            obtain ⟨ih1, ih2, ih3⟩ := ih cur _ m hok2 hb2 hm
            rw [hstep]
            refine ⟨?_, ih2, ih3⟩
            simp only []
            rw [List.filter_cons_of_neg hvid, ih1]
      · -- the head is not due: nothing is
        have hall : ∀ x ∈ e :: rest, cur < x.dueAtCycle := by
          intro x hx
          rcases List.mem_cons.mp hx with rfl | hx
          · omega
          · have := firesBefore_due (hsort.1 x hx)
            omega
        have hokps : PendingOk P (m * P) (e :: rest) :=
          ⟨List.pairwise_cons.mpr hsort, hper, hfilt⟩
        have hvi : cur < m * P := hall _ (viEvent_mem_of_ok hokps)
        have hmeq := index_of_not_due P hP m cur hm hvi
        have h0 : cur / P + 1 - m = 0 := by omega
        rw [fireDue_not_due fuel cur e rest hdue, h0, ← hmeq]
        exact ⟨rfl, hokps, hall⟩

theorem advanceAndFire_ok (P : Nat) (hP : 0 < P) (cur : Nat) (ps : PendingSet) (m : Nat)
    (hok : PendingOk P (m * P) ps) (hm : m ≤ cur / P + 1) :
    (advanceAndFire cur ps).1.filter ScheduledEvent.isVideo =
        (List.range (cur / P + 1 - m)).map (fun k => viEvent ((m + k) * P) P) ∧
    PendingOk P ((cur / P + 1) * P) (advanceAndFire cur ps).2 ∧
    (∀ e ∈ (advanceAndFire cur ps).2, cur < e.dueAtCycle) :=
  fireDue_ok P hP (fireBudget cur ps) cur ps m hok (Nat.le_refl _) hm

theorem viEvent_range_append (P m a b : Nat) :
    (List.range a).map (fun k => viEvent ((m + k) * P) P) ++
      (List.range b).map (fun k => viEvent ((m + a + k) * P) P) =
    (List.range (a + b)).map (fun k => viEvent ((m + k) * P) P) := by
  rw [List.range_add, List.map_append, List.map_map]
  congr 1
  apply List.map_congr_left
  intro k _
  simp only [Function.comp_apply, Nat.add_assoc]

theorem run_cons (s : Core) (d : Nat) (ds : List Nat) :
    Core.run s (d :: ds) =
      ((advanceAndFire (s.now + d) s.pending).1 ++
          (Core.run ⟨s.now + d, (advanceAndFire (s.now + d) s.pending).2⟩ ds).1,
       (Core.run ⟨s.now + d, (advanceAndFire (s.now + d) s.pending).2⟩ ds).2) := rfl

/-- A session of at least one step on a well-formed pending set whose
`VideoInterrupt` deadline is `m * P`. -/
theorem run_ok (P : Nat) (hP : 0 < P) :
    ∀ (deltas : List Nat) (d now : Nat) (ps : PendingSet) (m : Nat),
      PendingOk P (m * P) ps → m ≤ now / P + 1 →
      (Core.run ⟨now, ps⟩ (d :: deltas)).1.filter ScheduledEvent.isVideo =
          (List.range ((now + (d :: deltas).sum) / P + 1 - m)).map
            (fun k => viEvent ((m + k) * P) P) ∧
      (Core.run ⟨now, ps⟩ (d :: deltas)).2.now = now + (d :: deltas).sum ∧
      PendingOk P (((now + (d :: deltas).sum) / P + 1) * P)
          (Core.run ⟨now, ps⟩ (d :: deltas)).2.pending ∧
      (∀ e ∈ (Core.run ⟨now, ps⟩ (d :: deltas)).2.pending,
          now + (d :: deltas).sum < e.dueAtCycle) := by
  intro deltas
  induction deltas with
  | nil =>
    intro d now ps m hok hm
    have hmono : now / P ≤ (now + d) / P := Nat.div_le_div_right (Nat.le_add_right now d)
    obtain ⟨h1, h2, h3⟩ := advanceAndFire_ok P hP (now + d) ps m hok (by omega)
    rw [run_cons]
    simp only [Core.run, List.append_nil, List.sum_cons, List.sum_nil, Nat.add_zero]
    exact ⟨h1, trivial, h2, h3⟩
  | cons d2 ds ih =>
    intro d now ps m hok hm
    have hmono : now / P ≤ (now + d) / P := Nat.div_le_div_right (Nat.le_add_right now d)
    have hmono2 : (now + d) / P ≤ (now + d + (d2 :: ds).sum) / P :=
      Nat.div_le_div_right (Nat.le_add_right _ _)
    obtain ⟨h1, h2, _⟩ := advanceAndFire_ok P hP (now + d) ps m hok (by omega)
    obtain ⟨r1, r2, r3, r4⟩ :=
      ih d2 (now + d) (advanceAndFire (now + d) ps).2 ((now + d) / P + 1) h2 (Nat.le_refl _)
    have hsum : now + (d :: d2 :: ds).sum = now + d + (d2 :: ds).sum := by
      simp only [List.sum_cons]
      omega
    rw [run_cons, hsum]
    simp only []
    refine ⟨?_, r2, r3, r4⟩
    rw [List.filter_append, h1, r1]
    have hm2 : (now + d) / P + 1 = m + ((now + d) / P + 1 - m) := by omega
    have happ := viEvent_range_append P m ((now + d) / P + 1 - m)
      ((now + d + (d2 :: ds).sum) / P + 1 - ((now + d) / P + 1))
    rw [← hm2] at happ
    rw [happ]
    congr 2
    omega

/-- C10: drift-free rescheduling.  Let the periodic `VideoInterrupt` event with
period `P > 0` and first deadline 0 be scheduled next to any well-formed set of
other pending events, and let the session be advanced by any sequence of cycle
deltas.  Then `schedule` accepts the event; the `VideoInterrupt` firings are
exactly those with `dueAtCycle = K * P` for `K = 0, 1, ..., n - 1` (the K-th
firing, counted from 0, is due at `K * P`), where `n` is 0 before the first call
and `now / P + 1` afterwards; the pending `VideoInterrupt` deadline is `n * P`;
and after a call no pending event is due. -/
theorem C10_drift_free_rescheduling (P : Nat) (hP : 0 < P) (others : PendingSet)
    (hsorted : others.Pairwise (fun a b => a.firesBefore b = true))
    (hperiods : ∀ e ∈ others, e.periodCycles ≠ some 0)
    (hkinds : ∀ e ∈ others, e.kind ≠ EventKind.VideoInterrupt)
    (deltas : List Nat) :
    schedule others EventKind.VideoInterrupt 0 (some P) false
      = Except.ok (insertEvent (viEvent 0 P) others) ∧
    ((Core.run ⟨0, insertEvent (viEvent 0 P) others⟩ deltas).1.filter
        ScheduledEvent.isVideo).map ScheduledEvent.dueAtCycle =
      (List.range (if deltas = [] then 0 else deltas.sum / P + 1)).map (fun K => K * P) ∧
    (Core.run ⟨0, insertEvent (viEvent 0 P) others⟩ deltas).1.filter ScheduledEvent.isVideo =
      (List.range (if deltas = [] then 0 else deltas.sum / P + 1)).map
        (fun K => viEvent (K * P) P) ∧
    (Core.run ⟨0, insertEvent (viEvent 0 P) others⟩ deltas).2.now = deltas.sum ∧
    (Core.run ⟨0, insertEvent (viEvent 0 P) others⟩ deltas).2.pending.filter
        ScheduledEvent.isVideo =
      [viEvent ((if deltas = [] then 0 else deltas.sum / P + 1) * P) P] ∧
    (deltas = [] ∨
      ∀ e ∈ (Core.run ⟨0, insertEvent (viEvent 0 P) others⟩ deltas).2.pending,
        deltas.sum < e.dueAtCycle) := by
  have hne : P ≠ 0 := by omega
  have hnone : others.filter ScheduledEvent.isVideo = [] := by
    rw [List.filter_eq_nil_iff]
    intro e he
    simpa [ScheduledEvent.isVideo] using hkinds e he
  have hany : others.any (fun e => decide (e.kind = EventKind.VideoInterrupt)) = false := by
    rw [List.any_eq_false]
    intro e he
    simpa using hkinds e he
  have hsched : schedule others EventKind.VideoInterrupt 0 (some P) false
      = Except.ok (insertEvent (viEvent 0 P) others) := by
    simp [schedule, hne, hany, viEvent]
  have hok : PendingOk P (0 * P) (insertEvent (viEvent 0 P) others) := by
    rw [Nat.zero_mul]
    refine ⟨pairwise_insertEvent _ _ hsorted, ?_, filter_insertEvent_of_none _ _ _ rfl hnone⟩
    intro x hx
    rcases (mem_insertEvent _ _ _).mp hx with rfl | hx
    · simpa [viEvent] using hne
    · exact hperiods x hx
  have hseq : ∀ n : Nat, ((List.range n).map (fun K => viEvent (K * P) P)).map
      ScheduledEvent.dueAtCycle = (List.range n).map (fun K => K * P) := by
    intro n
    rw [List.map_map]
    rfl
  refine ⟨hsched, ?_⟩
  cases deltas with
  | nil =>
    have h0 := hok.2.2
    rw [Nat.zero_mul] at h0
    simp [Core.run, h0]
  | cons d ds =>
    obtain ⟨r1, r2, r3, r4⟩ := run_ok P hP ds d 0 _ 0 hok (Nat.zero_le _)
    simp only [Nat.zero_add, Nat.sub_zero] at r1 r2 r3 r4
    have hif : (if d :: ds = [] then 0 else (d :: ds).sum / P + 1) = (d :: ds).sum / P + 1 := by
      simp
    rw [hif, r1, hseq, r2]
    exact ⟨rfl, rfl, rfl, r3.2.2, Or.inr r4⟩

/-- C10 on a session that also holds a periodic audio event and a one-shot
compare timer, advanced by the deltas 1, 7, 2: the VI firings are due at
0, 3, 6, 9. -/
theorem C10_drift_free_rescheduling_witness :
    0 < 3 ∧
    ((Core.run ⟨0, insertEvent (viEvent 0 3)
        [⟨EventKind.AudioInterrupt, 2, some 5⟩, ⟨EventKind.CompareTimer, 4, none⟩]⟩
        [1, 7, 2]).1.filter ScheduledEvent.isVideo).map ScheduledEvent.dueAtCycle
      = [0, 3, 6, 9] :=
  ⟨by decide,
    (C10_drift_free_rescheduling 3 (by decide)
      [⟨EventKind.AudioInterrupt, 2, some 5⟩, ⟨EventKind.CompareTimer, 4, none⟩]
      (by decide) (by decide) (by decide) [1, 7, 2]).2.1.trans (by decide)⟩

/-! ## The documented cycle figures and the exact rounding condition -/

/-- C11 fails on the code: no clock constant produces both documented figures.
For every clock `c`, the pre-patch PAL formula `c / 50` is not 33333 or the
`c / 60` formula is not 28658.  At `c = 1666650` the PAL figure 33333 is met and
`c / 60` is 27777; at `c = 1719480` the figure 28658 is met and `c / 50` is 34389. -/
theorem C11_documented_figures_disagree (pal : Bool) (c : Nat) :
    (init_vi_timer_old true c ≠ 33333 ∨ init_vi_timer pal c ≠ 28658) ∧
    (init_vi_timer_old true 1666650 = 33333 ∧ init_vi_timer pal 1666650 = 27777) ∧
    (init_vi_timer pal 1719480 = 28658 ∧ init_vi_timer_old true 1719480 = 34389) := by
  have hold : ∀ n : Nat, init_vi_timer_old true n = n / 50 := fun _ => rfl
  simp only [init_vi_timer_eq, hold]
  refine ⟨?_, ⟨by decide, by decide⟩, ⟨by decide, by decide⟩⟩
  omega

/-- C12: the period `c / 60` stored by the patched `init_vi_timer` equals
round-to-nearest-even of `c / 60` exactly when `c mod 60 < 30`, or
`c mod 60 = 30` and `c / 60` is even; otherwise it is exactly one cycle shorter
than the rounded period.  The two agree for every clock that is a multiple
of 60. -/
theorem C12_truncation_versus_rounding (pal : Bool) (c : Nat) :
    ((init_vi_timer pal c : ℤ) = roundHalfEven ((c : ℚ) / ((60 : Nat) : ℚ)) ↔
      (c % 60 < 30 ∨ (c % 60 = 30 ∧ (c / 60) % 2 = 0))) ∧
    ((c % 60 < 30 ∨ (c % 60 = 30 ∧ (c / 60) % 2 = 0)) ∨
      (init_vi_timer pal c : ℤ) + 1 = roundHalfEven ((c : ℚ) / ((60 : Nat) : ℚ))) ∧
    (init_vi_timer pal (60 * c) : ℤ)
      = roundHalfEven (((60 * c : Nat) : ℚ) / ((60 : Nat) : ℚ)) := by
  rw [roundHalfEven_natDiv c 60 (by decide), roundHalfEven_natDiv (60 * c) 60 (by decide),
    init_vi_timer_eq, init_vi_timer_eq]
  have hmod : (60 * c) % 60 = 0 := Nat.mul_mod_right 60 c
  have h1 : roundHalfEvenDiv c 60 = c / 60 ↔
      (c % 60 < 30 ∨ (c % 60 = 30 ∧ (c / 60) % 2 = 0)) := by
    unfold roundHalfEvenDiv
    split_ifs <;> omega
  have h2 : (c % 60 < 30 ∨ (c % 60 = 30 ∧ (c / 60) % 2 = 0)) ∨
      c / 60 + 1 = roundHalfEvenDiv c 60 := by
    unfold roundHalfEvenDiv
    split_ifs <;> omega
  have h3 : 60 * c / 60 = roundHalfEvenDiv (60 * c) 60 := by
    unfold roundHalfEvenDiv
    rw [hmod]
    simp
  refine ⟨?_, ?_, ?_⟩
  · rw [← h1]
    constructor
    · intro h
      exact (Nat.cast_inj.mp h).symm
    · intro h
      rw [h]
  · rcases h2 with h | h
    · exact Or.inl h
    · right
      exact_mod_cast h
  · exact_mod_cast h3
